import Mathlib

/-!
Verification development for the PukiWiki-to-MkDocs converter
(`pw_to_mkdown3.py`, `pw_to_mkdown.py`, `pwdecode.py`).

The Python sources are shallowly embedded below: strings become `String` /
`List Char`, bytes become `List Nat`, exceptions become `Except PyErr`, and
each `re.sub` call is embedded as a hand-specialised scanner implementing the
exact matching semantics of its fixed pattern (leftmost, non-overlapping,
greedy/lazy as written, `MULTILINE` where the source passes that flag).
-/

/-- Characters that are awkward to write literally are produced by code point. -/
def apoChar : Char := Char.ofNat 39

/-- Double-quote character. -/
def dqChar : Char := Char.ofNat 34

/-- Backtick character. -/
def btChar : Char := Char.ofNat 96

/-- Backslash character. -/
def bsChar : Char := Char.ofNat 92

/-- ASCII whitespace recognised by Python's `\s` / `str.strip` (the unicode
whitespace characters beyond ASCII are not modelled; no input in this
development contains them). -/
def isPySpaceChar (c : Char) : Bool :=
  c = ' ' || c = Char.ofNat 9 || c = Char.ofNat 10 || c = Char.ofNat 13 ||
  c = Char.ofNat 11 || c = Char.ofNat 12

/-- Helper for `str.split(sep)` with a one-character separator. -/
def splitOnCharGo (sep : Char) : List Char → List Char → List (List Char)
  | [], acc => [acc.reverse]
  | c :: cs, acc =>
    if c = sep then acc.reverse :: splitOnCharGo sep cs []
    else splitOnCharGo sep cs (c :: acc)

/-- Python `s.split(sep)` for a one-character separator (always non-empty,
`"".split(sep) == [""]`). -/
def splitOnChar (sep : Char) (l : List Char) : List (List Char) :=
  splitOnCharGo sep l []

/-- String-level wrapper of `splitOnChar`. -/
def splitOnCharS (sep : Char) (s : String) : List String :=
  (splitOnChar sep s.data).map String.mk

/-- Python `str.strip()` restricted to ASCII whitespace. -/
def pyStrip (s : String) : String :=
  ⟨((s.data.dropWhile isPySpaceChar).reverse.dropWhile isPySpaceChar).reverse⟩

/-- Value of a hexadecimal digit, mirroring the digits `bytes.fromhex` accepts. -/
def hexDigitVal (c : Char) : Option Nat :=
  let n := c.toNat
  if 48 ≤ n ∧ n ≤ 57 then some (n - 48)
  else if 65 ≤ n ∧ n ≤ 70 then some (n - 55)
  else if 97 ≤ n ∧ n ≤ 102 then some (n - 87)
  else none

/-- Character is a hexadecimal digit. -/
def isHexDigit (c : Char) : Bool := (hexDigitVal c).isSome

/-- Core loop of CPython's `bytes.fromhex`: ASCII whitespace (space, tab,
newline, carriage return, vertical tab, form feed) may separate digit pairs,
every other character must be a hex digit, and each pair must be complete
(whitespace or end of input between the two digits of a pair is an error).
`none` models the `ValueError` CPython raises on malformed input. -/
def pyBytesFromHexGo : List Char → Option (List Nat)
  | [] => some []
  | c :: cs =>
    if isPySpaceChar c then pyBytesFromHexGo cs
    else
      match cs with
      | [] => none
      | c2 :: cs2 =>
        match hexDigitVal c, hexDigitVal c2 with
        | some d1, some d2 => (pyBytesFromHexGo cs2).map (fun bs => (16 * d1 + d2) :: bs)
        | _, _ => none

/-- Python `bytes.fromhex` on a string. -/
def pyBytesFromHex (s : String) : Option (List Nat) := pyBytesFromHexGo s.data

/-- Trail byte of a JIS X 0208/0212 pair in EUC-JP. -/
def inJisRange (b : Nat) : Bool := 0xA1 ≤ b && b ≤ 0xFE

/-- Positional model of the JIS X 0208 code table used by the `euc_jp` codec:
the table itself (which maps each row/cell pair to a concrete non-ASCII
character and rejects unassigned cells) is represented by a distinct
non-ASCII code point per cell. -/
def jis208Char (b t : Nat) : Char := Char.ofNat (0xE000 + (b - 0xA1) * 94 + (t - 0xA1))

/-- Positional model of the JIS X 0212 plane reached through lead byte `0x8F`. -/
def jis212Char (t1 t2 : Nat) : Char := Char.ofNat (0xF0000 + (t1 - 0xA1) * 94 + (t2 - 0xA1))

/-- Byte-structure model of Python's `euc_jp` codec: ASCII bytes decode to
themselves, `0x8E` starts a halfwidth-katakana pair (decoded exactly),
`0x8F` a three-byte JIS X 0212 sequence, and `0xA1..0xFE` a JIS X 0208 pair;
anything else fails (`UnicodeDecodeError` is modelled as `none`). -/
def eucJpDecodeGo : List Nat → Option (List Char)
  | [] => some []
  | b :: bs =>
    if b < 128 then (eucJpDecodeGo bs).map (fun l => Char.ofNat b :: l)
    else if b = 0x8E then
      match bs with
      | t :: bs2 =>
        if 0xA1 ≤ t && t ≤ 0xDF then
          (eucJpDecodeGo bs2).map (fun l => Char.ofNat (0xFF61 + t - 0xA1) :: l)
        else none
      | [] => none
    else if b = 0x8F then
      match bs with
      | t1 :: t2 :: bs2 =>
        if inJisRange t1 && inJisRange t2 then
          (eucJpDecodeGo bs2).map (fun l => jis212Char t1 t2 :: l)
        else none
      | _ => none
    else if 0xA1 ≤ b && b ≤ 0xFE then
      match bs with
      | t :: bs2 =>
        if inJisRange t then (eucJpDecodeGo bs2).map (fun l => jis208Char b t :: l)
        else none
      | [] => none
    else none

/-- Python `encoded_bytes.decode("euc_jp")`, `none` on `UnicodeDecodeError`. -/
def eucJpDecode (bs : List Nat) : Option String := (eucJpDecodeGo bs).map String.mk

/-- UTF-8 continuation byte. -/
def utf8Cont (b : Nat) : Bool := 0x80 ≤ b && b ≤ 0xBF

/-- Strict UTF-8 decoding exactly as Python's `utf-8` codec performs it
(overlong encodings, surrogates and out-of-range sequences rejected). -/
def utf8DecodeGo : List Nat → Option (List Char)
  | [] => some []
  | b :: bs =>
    if b < 0x80 then (utf8DecodeGo bs).map (fun l => Char.ofNat b :: l)
    else if 0xC2 ≤ b && b ≤ 0xDF then
      match bs with
      | b2 :: bs2 =>
        if utf8Cont b2 then
          (utf8DecodeGo bs2).map (fun l => Char.ofNat ((b - 0xC0) * 64 + (b2 - 0x80)) :: l)
        else none
      | [] => none
    else if 0xE0 ≤ b && b ≤ 0xEF then
      match bs with
      | b2 :: b3 :: bs2 =>
        let lowOk :=
          if b = 0xE0 then 0xA0 ≤ b2 && b2 ≤ 0xBF
          else if b = 0xED then 0x80 ≤ b2 && b2 ≤ 0x9F
          else utf8Cont b2
        if lowOk && utf8Cont b3 then
          (utf8DecodeGo bs2).map
            (fun l => Char.ofNat ((b - 0xE0) * 4096 + (b2 - 0x80) * 64 + (b3 - 0x80)) :: l)
        else none
      | _ => none
    else if 0xF0 ≤ b && b ≤ 0xF4 then
      match bs with
      | b2 :: b3 :: b4 :: bs2 =>
        let lowOk :=
          if b = 0xF0 then 0x90 ≤ b2 && b2 ≤ 0xBF
          else if b = 0xF4 then 0x80 ≤ b2 && b2 ≤ 0x8F
          else utf8Cont b2
        if lowOk && utf8Cont b3 && utf8Cont b4 then
          (utf8DecodeGo bs2).map
            (fun l =>
              Char.ofNat ((b - 0xF0) * 262144 + (b2 - 0x80) * 4096 +
                (b3 - 0x80) * 64 + (b4 - 0x80)) :: l)
        else none
      | _ => none
    else none

/-- Python `encoded_bytes.decode("utf-8")`, `none` on `UnicodeDecodeError`. -/
def utf8Decode (bs : List Nat) : Option String := (utf8DecodeGo bs).map String.mk

/-- Embedding of `try_decode` (pw_to_mkdown3.py lines 28-37, and the identical
function in pwdecode.py): attempt `euc_jp`, then `utf-8`, `None` if both fail. -/
def tryDecode (bs : List Nat) : Option String :=
  match eucJpDecode bs with
  | some s => some s
  | none => utf8Decode bs

/-- Membership in the character class of the substitution regex
at pw_to_mkdown3.py line 45: backslash, colon, asterisk, question mark,
double quote, angle brackets, pipe (not forward slash). -/
def unsafeChar (c : Char) : Bool :=
  c = bsChar || c = ':' || c = '*' || c = '?' || c = dqChar || c = '<' || c = '>' || c = '|'

/-- Loop of the substitution: the regex character class carries `+`, so a
maximal run of unsafe characters is replaced by one underscore. The flag
records whether we are inside such a run. -/
def unsafeSubGo : List Char → Bool → List Char
  | [], _ => []
  | c :: cs, inRun =>
    if unsafeChar c then
      if inRun then unsafeSubGo cs true else '_' :: unsafeSubGo cs true
    else c :: unsafeSubGo cs false

/-- Python exceptions relevant to the embedded code paths. -/
inductive PyErr where
  | valueError
  | typeError
  | assertionError
deriving DecidableEq, Repr

/-- Embedding of the `re.sub` substitution applied by `decode_name`. -/
def unsafeSub (s : String) : String := ⟨unsafeSubGo s.data false⟩

/-- Embedding of `decode_name` (pw_to_mkdown3.py lines 40-46):
`bytes.fromhex` (raising `ValueError` on malformed hex), then `try_decode`;
when `try_decode` returns `None` the subsequent `re.sub` on `None` raises
`TypeError`; otherwise the unsafe-character substitution is applied. -/
def decodeName (fileBase : String) : Except PyErr String :=
  match pyBytesFromHex fileBase with
  | none => .error .valueError
  | some bs =>
    match tryDecode bs with
    | none => .error .typeError
    | some d => .ok (unsafeSub d)

/-- Python `os.path.basename`: everything after the last slash. -/
def pyBasename (s : String) : String :=
  ⟨((splitOnChar '/' s.data).reverse.headD [])⟩

/-- Index of the last dot in a character list, if any. -/
def lastDotIndexGo : List Char → Nat → Option Nat → Option Nat
  | [], _, best => best
  | c :: cs, i, best => lastDotIndexGo cs (i + 1) (if c = '.' then some i else best)

/-- First component of Python `os.path.splitext` applied to a bare file name:
split at the last dot, except that leading dots of the name never start an
extension. -/
def pySplitextBase (name : String) : String :=
  match lastDotIndexGo name.data 0 none with
  | some i => if (name.data.take i).any (fun c => c ≠ '.') then ⟨name.data.take i⟩ else name
  | none => name

/-- Final component of a `pathlib.Path` (last non-empty slash-separated part). -/
def pathlibName (s : String) : String :=
  ⟨(((splitOnChar '/' s.data).filter (fun l => l ≠ [])).reverse.headD [])⟩

/-- Suffix of a `pathlib.Path`: the substring of the final component from its
last dot, provided the dot is neither the first nor the last character. -/
def pathlibSuffix (s : String) : String :=
  let name := (pathlibName s).data
  match lastDotIndexGo name 0 none with
  | some i => if 0 < i ∧ i < name.length - 1 then ⟨name.drop i⟩ else ""
  | none => ""

/-- Stem of a `pathlib.Path`: final component with `pathlibSuffix` removed. -/
def pathlibStem (s : String) : String :=
  let name := (pathlibName s).data
  match lastDotIndexGo name 0 none with
  | some i => if 0 < i ∧ i < name.length - 1 then ⟨name.take i⟩ else ⟨name⟩
  | none => ⟨name⟩

/-- Python `Path(p).with_suffix("")`: removes the final component's suffix. -/
def pyWithSuffixEmpty (p : String) : String :=
  ⟨p.data.take (p.data.length - (pathlibSuffix p).data.length)⟩

/-- Embedding of `is_default_lang` (pw_to_mkdown3.py lines 124-127). -/
def isDefaultLang (lang : String) : Bool := lang = "ja"

/-- String form of a page name whose parts are the slash-separated segments,
matching `str(page_name)` for the `pathlib.Path` the source carries. -/
def pagePathStr (page : List String) : String := String.intercalate "/" page

/-- Embedding of `get_top_dir` (pw_to_mkdown3.py lines 129-136): `"."` for the
index page, else `"../" * npar` as a `Path`, whose string form is `npar`
copies of `..` joined by slashes; `npar` is the number of page-name parts
plus one under a non-default language. -/
def topDirStr (lang : String) (page : List String) : String :=
  if pagePathStr page = "index" then "."
  else
    let npar := page.length + (if isDefaultLang lang then 0 else 1)
    String.intercalate "/" (List.replicate npar "..")

/-- String form of `page_name.parent` for a `pathlib.Path`. -/
def parentStr (page : List String) : String :=
  if page.length ≤ 1 then "." else pagePathStr page.dropLast

/-- Decoder used by `urllib.parse.unquote(..., errors="replace")`: UTF-8 with
one replacement character per maximal invalid subsequence (the lead byte and
its valid continuation bytes are consumed together on error). Each step
consumes at least one byte, so fuel `length + 1` always suffices. -/
def utf8ReplaceGo : Nat → List Nat → List Char
  | 0, _ => []
  | _ + 1, [] => []
  | fuel + 1, b :: bs =>
    if b < 0x80 then Char.ofNat b :: utf8ReplaceGo fuel bs
    else if 0xC2 ≤ b && b ≤ 0xDF then
      match bs with
      | b2 :: bs2 =>
        if utf8Cont b2 then
          Char.ofNat ((b - 0xC0) * 64 + (b2 - 0x80)) :: utf8ReplaceGo fuel bs2
        else Char.ofNat 0xFFFD :: utf8ReplaceGo fuel bs
      | [] => [Char.ofNat 0xFFFD]
    else if 0xE0 ≤ b && b ≤ 0xEF then
      match bs with
      | b2 :: bs2 =>
        let lowOk :=
          if b = 0xE0 then 0xA0 ≤ b2 && b2 ≤ 0xBF
          else if b = 0xED then 0x80 ≤ b2 && b2 ≤ 0x9F
          else utf8Cont b2
        if lowOk then
          match bs2 with
          | b3 :: bs3 =>
            if utf8Cont b3 then
              Char.ofNat ((b - 0xE0) * 4096 + (b2 - 0x80) * 64 + (b3 - 0x80)) ::
                utf8ReplaceGo fuel bs3
            else Char.ofNat 0xFFFD :: utf8ReplaceGo fuel bs2
          | [] => [Char.ofNat 0xFFFD]
        else Char.ofNat 0xFFFD :: utf8ReplaceGo fuel bs
      | [] => [Char.ofNat 0xFFFD]
    else if 0xF0 ≤ b && b ≤ 0xF4 then
      match bs with
      | b2 :: bs2 =>
        let lowOk :=
          if b = 0xF0 then 0x90 ≤ b2 && b2 ≤ 0xBF
          else if b = 0xF4 then 0x80 ≤ b2 && b2 ≤ 0x8F
          else utf8Cont b2
        if lowOk then
          match bs2 with
          | b3 :: bs3 =>
            if utf8Cont b3 then
              match bs3 with
              | b4 :: bs4 =>
                if utf8Cont b4 then
                  Char.ofNat ((b - 0xF0) * 262144 + (b2 - 0x80) * 4096 +
                    (b3 - 0x80) * 64 + (b4 - 0x80)) :: utf8ReplaceGo fuel bs4
                else Char.ofNat 0xFFFD :: utf8ReplaceGo fuel bs3
              | [] => [Char.ofNat 0xFFFD]
            else Char.ofNat 0xFFFD :: utf8ReplaceGo fuel bs2
          | [] => [Char.ofNat 0xFFFD]
        else Char.ofNat 0xFFFD :: utf8ReplaceGo fuel bs
      | [] => [Char.ofNat 0xFFFD]
    else Char.ofNat 0xFFFD :: utf8ReplaceGo fuel bs

/-- UTF-8 decoding with replacement, top-level wrapper. -/
def utf8Replace (bs : List Nat) : List Char := utf8ReplaceGo (bs.length + 1) bs

/-- Loop of `urllib.parse.unquote`: `%XX` escapes accumulate bytes together
with interleaved ASCII literals, decoded UTF-8-with-replacement; a `%` not
followed by two hex digits stays literal; non-ASCII characters pass through
outside the byte decoding. Fuel is spent once per step, each of which
consumes at least one character. -/
def pyUnquoteGo : Nat → List Char → List Nat → List Char
  | 0, _, pend => utf8Replace pend.reverse
  | _ + 1, [], pend => utf8Replace pend.reverse
  | fuel + 1, c :: cs, pend =>
    if c = '%' then
      match cs with
      | c1 :: c2 :: rest =>
        match hexDigitVal c1, hexDigitVal c2 with
        | some d1, some d2 => pyUnquoteGo fuel rest ((16 * d1 + d2) :: pend)
        | _, _ => pyUnquoteGo fuel cs (37 :: pend)
      | _ => pyUnquoteGo fuel cs (37 :: pend)
    else if c.toNat < 128 then pyUnquoteGo fuel cs (c.toNat :: pend)
    else utf8Replace pend.reverse ++ c :: pyUnquoteGo fuel cs []

/-- Python `urllib.parse.unquote` with default UTF-8/replace handling. -/
def pyUnquote (s : String) : String := ⟨pyUnquoteGo (s.data.length + 1) s.data []⟩

/-- ASCII model of the regex `\w` class. -/
def isWordChar (c : Char) : Bool := c.isAlphanum || c = '_'

/-- Attempt of the pattern `/(\w+)/index\.php\?(.+)` at one position (which
must carry the leading slash); returns the language word and the greedy
rest-of-line page group. -/
def crossLangTry (l : List Char) : Option (List Char × List Char) :=
  match l with
  | '/' :: cs =>
    let (w, r1) := cs.span isWordChar
    if w ≠ [] ∧ ("/index.php?".data).isPrefixOf r1 then
      let g2 := (r1.drop 11).takeWhile (fun c => c ≠ Char.ofNat 10)
      if g2 ≠ [] then some (w, g2) else none
    else none
  | _ => none

/-- Leftmost match of `re.search(r"/(\w+)/index\.php\?(.+)", link)`. -/
def crossLangFind : List Char → Option (List Char × List Char)
  | [] => none
  | c :: cs =>
    match crossLangTry (c :: cs) with
    | some r => some r
    | none => crossLangFind cs

/-- Group of an anchored `(.+)$` tail in non-MULTILINE mode: the whole rest,
or the rest minus one final newline; it must be non-empty and contain no
newline. -/
def fullLineGroup (l : List Char) : Option (List Char) :=
  let cand := if l.getLast? = some (Char.ofNat 10) then l.dropLast else l
  if cand ≠ [] ∧ cand.all (fun c => c ≠ Char.ofNat 10) then some cand else none

/-- Group of an anchored `(.*)$` tail in non-MULTILINE mode (may be empty). -/
def fullLineGroupStar (l : List Char) : Option (List Char) :=
  let cand := if l.getLast? = some (Char.ofNat 10) then l.dropLast else l
  if cand.all (fun c => c ≠ Char.ofNat 10) then some cand else none

/-- Embedding of `_repl` inside `_convert_internal_links`
(pw_to_mkdown3.py lines 177-239): the ordered six-way link classification.
`text`/`link` are the already-extracted token groups; `page` is the current
page name split at slashes. -/
def linkRepl (lang : String) (page : List String) (text link : String) : String :=
  let topDir := topDirStr lang page
  let l := link.data
  match (if l.head? = some '#' then fullLineGroup l.tail else none) with
  | some idx => "[" ++ text ++ "](#" ++ String.mk idx ++ ")"
  | none =>
  match (if ("./".data).isPrefixOf l then fullLineGroup (l.drop 2) else none) with
  | some rel =>
    if isDefaultLang lang then
      "[" ++ text ++ "](" ++ topDir ++ "/" ++ pagePathStr page ++ "/" ++ String.mk rel ++ ")"
    else
      "[" ++ text ++ "](" ++ topDir ++ "/" ++ lang ++ "/" ++ pagePathStr page ++ "/" ++
        String.mk rel ++ ")"
  | none =>
  match (if ("../".data).isPrefixOf l then fullLineGroupStar (l.drop 3) else none) with
  | some rel =>
    if isDefaultLang lang then
      "[" ++ text ++ "](" ++ topDir ++ "/" ++ parentStr page ++ "/" ++ String.mk rel ++ ")"
    else
      "[" ++ text ++ "](" ++ topDir ++ "/" ++ lang ++ "/" ++ parentStr page ++ "/" ++
        String.mk rel ++ ")"
  | none =>
  match crossLangFind l with
  | some (wl, g2) =>
    let linkLang := String.mk wl
    let pn := unsafeSub (pyUnquote (String.mk g2))
    if isDefaultLang linkLang then
      "[" ++ text ++ "](" ++ topDir ++ "/" ++ pn ++ ")"
    else
      "[" ++ text ++ "](" ++ topDir ++ "/" ++ linkLang ++ "/" ++ pn ++ ")"
  | none =>
  if ("http://".data).isPrefixOf l then "[" ++ text ++ "](" ++ link ++ ")"
  else if isDefaultLang lang then
    "[" ++ text ++ "](" ++ topDir ++ "/" ++ link ++ ")"
  else
    "[" ++ text ++ "](" ++ topDir ++ "/" ++ lang ++ "/" ++ link ++ ")"

/-- Scanner for the two-group token grammars `int_link_pat1`
(`\[\[([^>\]]+)>([^>\]]+)\]\]`) and `int_link_pat2`
(`\[\[([^:\]]+):([^>\]]+)\]\]`): leftmost, non-overlapping `re.sub`.
On a failed attempt the scan advances one character, as the regex engine
does. Fuel bounds the recursion; one unit is spent per emitted chunk, so
`length + 1` always suffices. -/
def linkScan2 (c1Ok c2Ok : Char → Bool) (sep : Char) (f : List Char → List Char → String) :
    Nat → List Char → List Char
  | 0, l => l
  | _ + 1, [] => []
  | fuel + 1, c :: cs =>
    if c = '[' then
      match cs with
      | '[' :: cs2 =>
        let (g1, r1) := cs2.span c1Ok
        (match g1, r1 with
         | _ :: _, s :: r2 =>
           if s = sep then
             let (g2, r3) := r2.span c2Ok
             match g2, r3 with
             | _ :: _, ']' :: ']' :: r4 => (f g1 g2).data ++ linkScan2 c1Ok c2Ok sep f fuel r4
             | _, _ => c :: linkScan2 c1Ok c2Ok sep f fuel cs
           else c :: linkScan2 c1Ok c2Ok sep f fuel cs
         | _, _ => c :: linkScan2 c1Ok c2Ok sep f fuel cs)
      | _ => c :: linkScan2 c1Ok c2Ok sep f fuel cs
    else c :: linkScan2 c1Ok c2Ok sep f fuel cs

/-- Scanner for the one-group token grammar `int_link_pat3`
(`\[\[([^>\]]+)\]\]`). -/
def linkScan1 (c1Ok : Char → Bool) (f : List Char → String) : Nat → List Char → List Char
  | 0, l => l
  | _ + 1, [] => []
  | fuel + 1, c :: cs =>
    if c = '[' then
      match cs with
      | '[' :: cs2 =>
        let (g1, r1) := cs2.span c1Ok
        (match g1, r1 with
         | _ :: _, ']' :: ']' :: r4 => (f g1).data ++ linkScan1 c1Ok f fuel r4
         | _, _ => c :: linkScan1 c1Ok f fuel cs)
      | _ => c :: linkScan1 c1Ok f fuel cs
    else c :: linkScan1 c1Ok f fuel cs

/-- First substitution pass of `_convert_internal_links`: `int_link_pat1`. -/
def subLinkPat1 (lang : String) (page : List String) (s : String) : String :=
  ⟨linkScan2 (fun c => !(c == '>') && !(c == ']')) (fun c => !(c == '>') && !(c == ']')) '>'
    (fun g1 g2 => linkRepl lang page (String.mk g1) (String.mk g2))
    (s.data.length + 1) s.data⟩

/-- Second substitution pass of `_convert_internal_links`: `int_link_pat2`. -/
def subLinkPat2 (lang : String) (page : List String) (s : String) : String :=
  ⟨linkScan2 (fun c => !(c == ':') && !(c == ']')) (fun c => !(c == '>') && !(c == ']')) ':'
    (fun g1 g2 => linkRepl lang page (String.mk g1) (String.mk g2))
    (s.data.length + 1) s.data⟩

/-- Third substitution pass of `_convert_internal_links`: `int_link_pat3`
(the bare token becomes both display text and link target). -/
def subLinkPat3 (lang : String) (page : List String) (s : String) : String :=
  ⟨linkScan1 (fun c => !(c == '>') && !(c == ']'))
    (fun g1 => linkRepl lang page (String.mk g1) (String.mk g1))
    (s.data.length + 1) s.data⟩

/-- Embedding of `_convert_internal_links` (pw_to_mkdown3.py lines 174-244):
the three token-grammar substitutions in source order. -/
def convertInternalLinks (lang : String) (page : List String) (s : String) : String :=
  subLinkPat3 lang page (subLinkPat2 lang page (subLinkPat1 lang page s))

/-- Generic scanner for a line-anchored `re.sub(..., flags=re.MULTILINE)` over
whole content: `step` attempts the pattern at a line start and returns the
replacement plus the unconsumed rest on success. Matching is leftmost and
non-overlapping; the flag tracks whether the current position is a line
start. Fuel is spent once per step; every step consumes at least one
character, so `length + 1` always suffices. -/
def lineScanGo (step : List Char → Option (List Char × List Char)) :
    Nat → Bool → List Char → List Char
  | 0, _, l => l
  | _ + 1, _, [] => []
  | fuel + 1, atStart, c :: cs =>
    if atStart then
      match step (c :: cs) with
      | some (out, rest) => out ++ lineScanGo step fuel false rest
      | none => c :: lineScanGo step fuel (c = Char.ofNat 10) cs
    else c :: lineScanGo step fuel (c = Char.ofNat 10) cs

/-- String wrapper for `lineScanGo`, starting at a line start. -/
def lineScan (step : List Char → Option (List Char × List Char)) (s : String) : String :=
  ⟨lineScanGo step (s.data.length + 1) true s.data⟩

/-- Step for the full-line literal rules `^#access$` / `^#contents$`:
the line must consist exactly of the literal; it is deleted. -/
def stepFullLine (pat : List Char) (l : List Char) : Option (List Char × List Char) :=
  if pat.isPrefixOf l ∧
      ((l.drop pat.length).head? = none ∨ (l.drop pat.length).head? = some (Char.ofNat 10)) then
    some ([], l.drop pat.length)
  else none

/-- Step for the blockquote rules `^>([^>].*)$` / `^>>([^>].*)$` with
replacement `\n>...`: `k` quote marks, then one character that is not `>`
(the `[^>]` class does match a newline), then the greedy rest of that line. -/
def stepQuote (k : Nat) (l : List Char) : Option (List Char × List Char) :=
  if (List.replicate k '>').isPrefixOf l then
    match l.drop k with
    | c :: rest2 =>
      if c = '>' then none
      else
        let run := rest2.takeWhile (fun x => !(x == Char.ofNat 10))
        some (Char.ofNat 10 :: (List.replicate k '>' ++ c :: run), rest2.drop run.length)
    | [] => none
  else none

/-- Step for the heading rules `^\*{k}\s*([^\s\*].+)$` with replacement
`out\1`: `k` stars, a maximal whitespace run (`\s` matches newlines), then a
character that is neither whitespace nor a star, then at least one more
character on that line. -/
def stepHeading (k : Nat) (out : List Char) (l : List Char) : Option (List Char × List Char) :=
  if (List.replicate k '*').isPrefixOf l then
    match (l.drop k).dropWhile isPySpaceChar with
    | c :: rest3 =>
      if c = '*' then none
      else
        let run := rest3.takeWhile (fun x => !(x == Char.ofNat 10))
        if run = [] then none
        else some (out ++ c :: run, rest3.drop run.length)
    | [] => none
  else none

/-- Lazy group search for an inline pair rule `d^k(.+?)d^k`: the shortest
non-empty newline-free group followed by the closing delimiter; returns the
group and the rest after the closing delimiter. -/
def emphFindClose (d : Char) (k : Nat) : Nat → List Char → Option (List Char × List Char)
  | 0, _ => none
  | _ + 1, [] => none
  | fuel + 1, c :: cs =>
    if c = Char.ofNat 10 then none
    else if (List.replicate k d).isPrefixOf cs then some ([c], cs.drop k)
    else
      match emphFindClose d k fuel cs with
      | some (g, rest) => some (c :: g, rest)
      | none => none

/-- Scanner for the inline emphasis-like rules (`''(.+?)''` etc.): leftmost
non-overlapping substitution wrapping the lazy group in `openO`/`closeO`. -/
def emphScanGo (d : Char) (k : Nat) (openO closeO : List Char) : Nat → List Char → List Char
  | 0, l => l
  | _ + 1, [] => []
  | fuel + 1, c :: cs =>
    if (List.replicate k d).isPrefixOf (c :: cs) then
      match emphFindClose d k (cs.length + 1) ((c :: cs).drop k) with
      | some (g, rest) => openO ++ (g ++ (closeO ++ emphScanGo d k openO closeO fuel rest))
      | none => c :: emphScanGo d k openO closeO fuel cs
    else c :: emphScanGo d k openO closeO fuel cs

/-- String wrapper for the inline pair substitutions. -/
def emphSub (d : Char) (k : Nat) (openO closeO : String) (s : String) : String :=
  ⟨emphScanGo d k openO.data closeO.data (s.data.length + 1) s.data⟩

/-- The eleven entries of `self.pukiwiki_rules` in pw_to_mkdown3.py
(lines 78-111), reified so the pipeline order itself is a term. -/
inductive PwRule where
  | access
  | contents
  | quote1
  | quote2
  | h1
  | h2
  | h3
  | bold
  | italic
  | strike
  | underline
deriving DecidableEq, Repr

/-- Interpretation of a single rule as the `re.sub(..., flags=re.MULTILINE)`
pass the source performs over the whole page content. -/
def runPwRule : PwRule → String → String
  | .access, s => lineScan (stepFullLine "#access".data) s
  | .contents, s => lineScan (stepFullLine "#contents".data) s
  | .quote1, s => lineScan (stepQuote 1) s
  | .quote2, s => lineScan (stepQuote 2) s
  | .h1, s => lineScan (stepHeading 1 "## ".data) s
  | .h2, s => lineScan (stepHeading 2 "### ".data) s
  | .h3, s => lineScan (stepHeading 3 "#### ".data) s
  | .bold, s => emphSub apoChar 2 "**" "**" s
  | .italic, s => emphSub apoChar 3 "*" "*" s
  | .strike, s => emphSub '%' 2 "~~" "~~" s
  | .underline, s => emphSub '_' 2 "<u>" "</u>" s

/-- The rule list in source order (pw_to_mkdown3.py lines 78-111). -/
def pukiwikiRules3 : List PwRule :=
  [.access, .contents, .quote1, .quote2, .h1, .h2, .h3, .bold, .italic, .strike, .underline]

/-- The rule loop of `convert_pukiwiki_file` (pw_to_mkdown3.py lines 460-465). -/
def applyRules3 (s : String) : String :=
  pukiwikiRules3.foldl (fun acc r => runPwRule r acc) s

/-- Per-line application of a transform, matching a MULTILINE `re.sub` whose
pattern cannot cross a newline. -/
def mapLines (f : String → String) (s : String) : String :=
  String.intercalate "\n" ((splitOnCharS (Char.ofNat 10) s).map f)

/-- Legacy heading rule `^!{k}(.+)$` from pw_to_mkdown.py lines 66-69. -/
def legacyHeadLine (k : Nat) (out : String) (l : String) : String :=
  if (List.replicate k '!').isPrefixOf l.data ∧ l.data.length > k then
    out ++ String.mk (l.data.drop k)
  else l

/-- Legacy list/numbered-list rule `^sig{k}(.+)$` from pw_to_mkdown.py
lines 71-79 (the group does not exclude a further sigil there). -/
def legacySigLine (sig : Char) (k : Nat) (out : String) (l : String) : String :=
  if (List.replicate k sig).isPrefixOf l.data ∧ l.data.length > k then
    out ++ String.mk (l.data.drop k)
  else l

/-- Legacy preformatted rule `^ (.+)$` with replacement three-backtick fences
around the line (pw_to_mkdown.py line 82). -/
def legacyPreLine (l : String) : String :=
  if l.data.head? = some ' ' ∧ l.data.length ≥ 2 then
    "```\n" ++ String.mk l.data.tail ++ "\n```"
  else l

/-- Legacy table rule `\|(.+)\|` with replacement `|\1|`
(pw_to_mkdown.py line 85): pattern and replacement are textually identical,
so every match is rewritten to itself and the pass is the identity. -/
def legacyTableLine (l : String) : String := l

/-- The legacy rule loop of pw_to_mkdown.py (lines 65-98 applied at 220-221):
headings `!!!`/`!!`/`!` to levels 1/2/3, lists, numbered lists,
preformatted, table, then the same four emphasis rules. -/
def applyRulesLegacy (s : String) : String :=
  let s := mapLines (legacyHeadLine 3 "# ") s
  let s := mapLines (legacyHeadLine 2 "## ") s
  let s := mapLines (legacyHeadLine 1 "### ") s
  let s := mapLines (legacySigLine '-' 3 "    * ") s
  let s := mapLines (legacySigLine '-' 2 "  * ") s
  let s := mapLines (legacySigLine '-' 1 "* ") s
  let s := mapLines (legacySigLine '+' 3 "    1. ") s
  let s := mapLines (legacySigLine '+' 2 "  1. ") s
  let s := mapLines (legacySigLine '+' 1 "1. ") s
  let s := mapLines legacyPreLine s
  let s := mapLines legacyTableLine s
  let s := emphSub apoChar 2 "**" "**" s
  let s := emphSub apoChar 3 "*" "*" s
  let s := emphSub '%' 2 "~~" "~~" s
  let s := emphSub '_' 2 "<u>" "</u>" s
  s

/-- Python `str.splitlines()` restricted to `\n` terminators: split at
newlines, dropping the empty fragment after a final newline. -/
def pySplitlines (s : String) : List String :=
  if s = "" then []
  else
    let parts := splitOnCharS (Char.ofNat 10) s
    if parts.getLast? = some "" then parts.dropLast else parts

/-- Literal substring replacement (all occurrences, left to right), modelling
`re.sub` with a metacharacter-free pattern such as `<pre>`. -/
def replaceSubGo (pat repl : List Char) : Nat → List Char → List Char
  | 0, l => l
  | _ + 1, [] => []
  | fuel + 1, c :: cs =>
    if pat.isPrefixOf (c :: cs) then repl ++ replaceSubGo pat repl fuel ((c :: cs).drop pat.length)
    else c :: replaceSubGo pat repl fuel cs

/-- String wrapper of `replaceSubGo`. -/
def replaceSubS (pat repl : String) (s : String) : String :=
  ⟨replaceSubGo pat.data repl.data (s.data.length + 1) s.data⟩

/-- Embedding of the code-block coalescing loop of `_convert_others`
(pw_to_mkdown3.py lines 257-275). A line matching `^ (.+)$` opens a fenced
block when none is open and contributes its tail; any other line closes an
open block. The source's final `if pre_block:` (lines 272-274) appends the
dangling closing fence to the superseded `lines` list, which the next
statement `lines = rlines` discards — so a run that reaches the end of the
body gets no closing fence. That dead store is embedded faithfully: the
`[]` case emits nothing. -/
def codeBlockGo : List String → Bool → List String
  | [], _ => []
  | l :: ls, pre =>
    if l.data.head? = some ' ' ∧ l.data.tail ≠ [] then
      let txt : String := ⟨l.data.tail⟩
      if pre then txt :: codeBlockGo ls true else "```" :: txt :: codeBlockGo ls true
    else
      (if pre then ["```"] else []) ++ l :: codeBlockGo ls false

/-- Last split of a character list at a `|` having at least one character on
each side, as the greedy groups of `^:(.+)\|(.+)$` produce. -/
def lastBarSplitGo :
    List Char → List Char → Option (List Char × List Char) → Option (List Char × List Char)
  | [], _, best => best
  | c :: cs, pre, best =>
    lastBarSplitGo cs (c :: pre)
      (if c = '|' ∧ pre ≠ [] ∧ cs ≠ [] then some (pre.reverse, cs) else best)

/-- Definition-list line conversion of `_convert_others`
(pw_to_mkdown3.py lines 278-286): `:term|description` becomes a blank line,
the stripped term, and an indented stripped description. -/
def defListLine (l : String) : String :=
  match l.data with
  | ':' :: rest =>
    match lastBarSplitGo rest [] none with
    | some (g1, g2) => "\n" ++ pyStrip ⟨g1⟩ ++ "\n:   " ++ pyStrip ⟨g2⟩
    | none => l
  | _ => l

/-- Match of one list pattern `^sig{k}([^sig].+)$` (anchored, rest of line
non-empty), returning the group. -/
def sigMatch (sig : Char) (k : Nat) (l : List Char) : Option (List Char) :=
  if (List.replicate k sig).isPrefixOf l then
    match l.drop k with
    | c :: rest =>
      if c ≠ sig ∧ rest ≠ [] ∧ (c :: rest).all (fun x => !(x == Char.ofNat 10)) then
        some (c :: rest)
      else none
    | [] => none
  else none

/-- Embedding of `is_list` (pw_to_mkdown3.py lines 289-304): the six list
patterns in source order with their indented replacements. -/
def isListMk (l : List Char) : Option String :=
  match sigMatch '-' 3 l with
  | some g => some ("        * " ++ String.mk g)
  | none =>
  match sigMatch '-' 2 l with
  | some g => some ("    * " ++ String.mk g)
  | none =>
  match sigMatch '-' 1 l with
  | some g => some ("* " ++ String.mk g)
  | none =>
  match sigMatch '+' 3 l with
  | some g => some ("        1. " ++ String.mk g)
  | none =>
  match sigMatch '+' 2 l with
  | some g => some ("    1. " ++ String.mk g)
  | none =>
  match sigMatch '+' 1 l with
  | some g => some ("1. " ++ String.mk g)
  | none => none

/-- List-separation loop of `_convert_others` (pw_to_mkdown3.py lines
306-326): a list item following non-list, non-blank content gets a blank
line inserted before it; the flags mirror `prev_list` and `prev_brank`. -/
def listsGo : List String → Bool → Bool → List String
  | [], _, _ => []
  | l :: ls, prevList, prevBlank =>
    match isListMk l.data with
    | some m =>
      (if prevList then [m] else if prevBlank then [m] else ["", m]) ++
        listsGo ls true (l == "")
    | none => l :: listsGo ls false (l == "")

/-- Last-occurrence split of a list at a literal pattern: the part before the
last occurrence and the part after it, as the greedy `(.*)` before a literal
closer produces. -/
def lastOccSplitGo (pat : List Char) :
    List Char → List Char → Option (List Char × List Char) → Option (List Char × List Char)
  | [], _, best => best
  | c :: cs, pre, best =>
    lastOccSplitGo pat cs (c :: pre)
      (if pat.isPrefixOf (c :: cs) then some (pre.reverse, (c :: cs).drop pat.length) else best)

/-- Leftmost match of `re.search(r"&aname\((.*)\);", line)`: the group runs
from after the first completable `&aname(` to the last `);` on its line
(the greedy `(.*)` cannot cross a newline). -/
def anameMatchGo : Nat → List Char → Option (List Char)
  | 0, _ => none
  | _ + 1, [] => none
  | fuel + 1, c :: cs =>
    if ("&aname(".data).isPrefixOf (c :: cs) then
      let rest := (c :: cs).drop 7
      let seg := rest.takeWhile (fun x => !(x == Char.ofNat 10))
      match lastOccSplitGo (");".data) seg [] none with
      | some (g, _) => some g
      | none => anameMatchGo fuel cs
    else anameMatchGo fuel cs

/-- Embedding of `re.sub(r"&aname\(.*\);", "", line)`: each match (first
completable `&aname(` through the last `);` on its line) is removed. -/
def anameStripGo : Nat → List Char → List Char
  | 0, l => l
  | _ + 1, [] => []
  | fuel + 1, c :: cs =>
    if ("&aname(".data).isPrefixOf (c :: cs) then
      let rest := (c :: cs).drop 7
      let seg := rest.takeWhile (fun x => !(x == Char.ofNat 10))
      match lastOccSplitGo (");".data) seg [] none with
      | some (_, afterClose) => anameStripGo fuel (afterClose ++ rest.drop seg.length)
      | none => c :: anameStripGo fuel cs
    else c :: anameStripGo fuel cs

/-- Named-anchor conversion of `_convert_others` (pw_to_mkdown3.py lines
330-338): a matching line contributes an anchor tag line followed by the
line with the `&aname(...);` directives removed. -/
def anameLine (l : String) : List String :=
  match anameMatchGo (l.data.length + 1) l.data with
  | some g => ["<a id=\"" ++ String.mk g ++ "\"></a>", ⟨anameStripGo (l.data.length + 1) l.data⟩]
  | none => [l]

/-- Leftmost match of `re.search(r"#youtube\((.*)\)", line)`: group from after
the first completable `#youtube(` to the last `)` on its line. -/
def youtubeMatchGo : Nat → List Char → Option (List Char)
  | 0, _ => none
  | _ + 1, [] => none
  | fuel + 1, c :: cs =>
    if ("#youtube(".data).isPrefixOf (c :: cs) then
      let rest := (c :: cs).drop 9
      let seg := rest.takeWhile (fun x => !(x == Char.ofNat 10))
      match lastOccSplitGo (")".data) seg [] none with
      | some (g, _) => some g
      | none => youtubeMatchGo fuel cs
    else youtubeMatchGo fuel cs

/-- The f-string HTML fragment built at pw_to_mkdown3.py lines 349-356,
reproduced verbatim (leading newline, 8-space continuation indents, and the
16 spaces preceding the closing triple quote). -/
def ytHtml (vid loop : String) : String :=
  "\n<iframe width=\"425\" height=\"350\" src=\"https://www.youtube.com/embed/" ++ vid ++
  "?mute=1&" ++ loop ++ "controls=1&rel=0&playlist=" ++ vid ++
  "\"\n        title=\"YouTube video player\"\n        frameborder=\"0\"\n        allow=\"autoplay; encrypted-media\"\n        allowfullscreen>\n</iframe>\n                "

/-- Video-embed conversion of `_convert_others` (pw_to_mkdown3.py lines
341-360): a matching line is wholly replaced by the iframe fragment; the
`loop` query parameters require exactly two comma-separated arguments with
the second literally `loop` (unstripped). -/
def youtubeLine (l : String) : String :=
  match youtubeMatchGo (l.data.length + 1) l.data with
  | some g =>
    let args := splitOnChar ',' g
    let vid := pyStrip ⟨args.headD []⟩
    let loop :=
      if args.length = 2 ∧ (args.getLast? = some ("loop".data)) then "autoplay=1&loop=1&"
      else ""
    ytHtml vid loop
  | none => l

/-- Trailing-`~` line-break conversion (pw_to_mkdown3.py line 364): per line
entry, `re.sub(r"^(.+)~$", r"\1<br/>", entry)` without MULTILINE, so the
group must span the whole entry (modulo one final newline) and contain no
newline. -/
def lineBreakLine (l : String) : String :=
  let d := l.data
  if d.getLast? = some (Char.ofNat 10) then
    let body := d.dropLast
    if body.length ≥ 2 ∧ body.getLast? = some '~' ∧
        body.all (fun c => !(c == Char.ofNat 10)) then
      String.mk body.dropLast ++ "<br/>" ++ "\n"
    else l
  else
    if d.length ≥ 2 ∧ d.getLast? = some '~' ∧ d.all (fun c => !(c == Char.ofNat 10)) then
      String.mk d.dropLast ++ "<br/>"
    else l

/-- Embedding of `_convert_others` (pw_to_mkdown3.py lines 246-369):
split into lines, drop `//` comment lines, map `<pre>`/`</pre>` to fences,
coalesce single-space-indented runs (with the dangling-fence dead store),
definition lists, list separation, named anchors, video embeds, trailing
line breaks, and rejoin with newlines. -/
def convertOthers (s : String) : String :=
  let lines := pySplitlines s
  let lines := lines.filter (fun l => !(("//".data).isPrefixOf l.data))
  let lines := lines.map (replaceSubS "<pre>" "```")
  let lines := lines.map (replaceSubS "</pre>" "```")
  let lines := codeBlockGo lines false
  let lines := lines.map defListLine
  let lines := listsGo lines false false
  let lines := (lines.map anameLine).flatten
  let lines := lines.map youtubeLine
  let lines := lines.map lineBreakLine
  String.intercalate "\n" lines

/-- Embedding of `strip_quotes` (pw_to_mkdown3.py lines 21-25): surrounding
quotes are stripped only when the text has length at least two and its first
and last characters are the same member of the double-quote / single-quote /
backtick set. -/
def stripQuotes (text : String) : String :=
  let l := text.data
  if 2 ≤ l.length ∧ l.head? = l.getLast? ∧
      (l.head? = some dqChar ∨ l.head? = some apoChar ∨ l.head? = some btChar) then
    ⟨l.tail.dropLast⟩
  else text

/-- Numeric value of a list of decimal digits. -/
def natOfDigits (l : List Char) : Nat :=
  l.foldl (fun a c => a * 10 + (c.toNat - 48)) 0

/-- Subset of Python `float(str)` sufficient for the numeric option tokens:
optional sign, decimal digits with an optional point, optional exponent
(`inf`/`nan` and digit underscores are not modelled). The binary float is
represented by the exact decimal value, which coincides with Python whenever
the value is exactly representable. `none` models `ValueError`. -/
def pyFloat (s : String) : Option ℚ :=
  let l := (pyStrip s).data
  let sl : Int × List Char :=
    match l with
    | '+' :: r => (1, r)
    | '-' :: r => (-1, r)
    | r => (1, r)
  let (ip, r1) := sl.2.span Char.isDigit
  let core : Option (Int × Nat × List Char) :=
    match r1 with
    | '.' :: r2 =>
      let (fp, r3) := r2.span Char.isDigit
      if ip = [] ∧ fp = [] then none
      else some (sl.1 * (natOfDigits (ip ++ fp) : Int), 10 ^ fp.length, r3)
    | _ => if ip = [] then none else some (sl.1 * (natOfDigits ip : Int), 1, r1)
  match core with
  | none => none
  | some (n, d, rest) =>
    match rest with
    | [] => some (mkRat n d)
    | e :: r4 =>
      if e = 'e' ∨ e = 'E' then
        let esl : Bool × List Char :=
          match r4 with
          | '+' :: r => (true, r)
          | '-' :: r => (false, r)
          | r => (true, r)
        let (ed, r6) := esl.2.span Char.isDigit
        if ed = [] ∨ r6 ≠ [] then none
        else if esl.1 then some (mkRat (n * ((10 : Nat) ^ natOfDigits ed : Nat)) d)
        else some (mkRat n (d * 10 ^ natOfDigits ed))
      else none

/-- Group of `re.match(r"(.+)%", token)`: the greedy group runs from the
start of the token to the last `%` on its first line, and must be
non-empty. -/
def pctMatch (s : String) : Option String :=
  let firstLine := s.data.takeWhile (fun x => !(x == Char.ofNat 10))
  match lastOccSplitGo ['%'] firstLine [] none with
  | some (pre, _) => if pre ≠ [] then some ⟨pre⟩ else none
  | none => none

/-- Division of an exact rational by 100, performed at the numerator /
denominator level (`mkRat` normalises) so that concrete option sets can be
evaluated by kernel reduction; equal to `v / 100`. -/
def ratDiv100 (v : ℚ) : ℚ := mkRat v.num (v.den * 100)

/-- Entries of the option list built by `process_image_options`
(pw_to_mkdown3.py lines 49-65). The source appends the literal strings
`style="zoom: {scl}"` and `.on-glb`; they are represented by these
constructors, with `scl` the exact rational value of `float(group)/100.0`. -/
inductive ImgOpt where
  | zoomStyle (scl : ℚ)
  | onGlb
deriving DecidableEq, Repr

/-- Loop of `process_image_options`: `nolink` clears the zoom-link flag, a
token matching `(.+)%` contributes a zoom style, and the `.on-glb` lightbox
class is appended after the loop when the flag is still set. `none` models
the `ValueError` that `float` raises on a non-numeric percent group. -/
def processImageOptionsGo : List String → Bool → Option (List ImgOpt)
  | [], zoomLink => some (if zoomLink then [.onGlb] else [])
  | i :: rest, zoomLink =>
    if i = "nolink" then processImageOptionsGo rest false
    else
      match pctMatch i with
      | some numStr =>
        match pyFloat numStr with
        | some v =>
          (processImageOptionsGo rest zoomLink).map (fun os => .zoomStyle (ratDiv100 v) :: os)
        | none => none
      | none => processImageOptionsGo rest zoomLink

/-- Embedding of `process_image_options`: the loop runs over `parts[1:]`. -/
def processImageOptions (parts : List String) : Option (List ImgOpt) :=
  processImageOptionsGo parts.tail true

/-- Decimal rendering of the zoom factor, as `repr` of the Python float
prints it: exact for terminating decimals (every zoom factor arising from
the percent options in this corpus), with a trailing `.0` for integral
values. -/
def ratDecimalRepr (q : ℚ) : String :=
  let sgn := if q.num < 0 then "-" else ""
  let d := q.den
  let k := (((List.range 31).find? (fun k => 10 ^ k % d = 0))).getD 30
  let n := q.num.natAbs * (10 ^ k / d)
  if k = 0 then sgn ++ toString n ++ ".0"
  else
    let ds := toString n
    let ds := if ds.length ≤ k then String.mk (List.replicate (k + 1 - ds.length) '0') ++ ds else ds
    sgn ++ String.mk (ds.data.take (ds.data.length - k)) ++ "." ++
      String.mk (ds.data.drop (ds.data.length - k))

/-- The literal option strings the source builds. -/
def renderImgOpt : ImgOpt → String
  | .zoomStyle v => "style=\"zoom: " ++ ratDecimalRepr v ++ "\""
  | .onGlb => ".on-glb"

/-- Python `os.path.join` for relative slash-style components. -/
def pyPathJoin (xs : List String) : String :=
  xs.foldl
    (fun acc b =>
      if b.data.head? = some '/' then b
      else if acc = "" then b
      else if acc.data.getLast? = some '/' then acc ++ b
      else acc ++ "/" ++ b) ""

/-- Embedding of `_repl` inside `_process_images` (pw_to_mkdown3.py lines
374-411): split the directive body at commas, strip and unquote the path,
take the path stem as alt text, build the option set, and emit the Markdown
image under `top_dir/assets/images/<page>/<filename>`, brace-annotated when
options exist and wrapped in blank lines in the block (`para`) case. -/
def imgRepl (lang : String) (page : List String) (para : Bool) (imgInfo : String) :
    Except PyErr String :=
  let parts := splitOnCharS ',' imgInfo
  let imgPath := stripQuotes (pyStrip (parts.headD ""))
  let altText := pathlibStem imgPath
  match processImageOptions parts with
  | none => .error .valueError
  | some options =>
    let imgFilename := pyBasename imgPath
    let topDir := topDirStr lang page
    let relPath :=
      replaceSubS "\\" "/" (pyPathJoin [topDir, "assets", "images", pagePathStr page, imgFilename])
    let core := "![" ++ altText ++ "](" ++ relPath ++ ")"
    let result :=
      if options.length > 0 then
        core ++ "\x7b " ++ String.intercalate " " (options.map renderImgOpt) ++ " \x7d"
      else core
    .ok (if para then "\n" ++ result ++ "\n" else result)

/-- Scanner for the inline image pattern `&ref\(([^)]+)\);` over the whole
content (the `[^)]` class matches newlines). -/
def inlineRefGo (lang : String) (page : List String) : Nat → List Char → Except PyErr (List Char)
  | 0, l => .ok l
  | _ + 1, [] => .ok []
  | fuel + 1, c :: cs =>
    if ("&ref(".data).isPrefixOf (c :: cs) then
      let rest := (c :: cs).drop 5
      let sp := rest.span (fun x => !(x == ')'))
      match sp.1, sp.2 with
      | _ :: _, ')' :: ';' :: r2 => do
        let repl ← imgRepl lang page false ⟨sp.1⟩
        let tail ← inlineRefGo lang page fuel r2
        .ok (repl.data ++ tail)
      | _, _ => do
        let tail ← inlineRefGo lang page fuel cs
        .ok (c :: tail)
    else do
      let tail ← inlineRefGo lang page fuel cs
      .ok (c :: tail)

/-- Scanner for the block image pattern `^#ref\(([^)]+)\)` with MULTILINE
anchoring: attempts only at line starts. -/
def blockRefGo (lang : String) (page : List String) :
    Nat → Bool → List Char → Except PyErr (List Char)
  | 0, _, l => .ok l
  | _ + 1, _, [] => .ok []
  | fuel + 1, atStart, c :: cs =>
    if atStart ∧ ("#ref(".data).isPrefixOf (c :: cs) then
      let rest := (c :: cs).drop 5
      let sp := rest.span (fun x => !(x == ')'))
      match sp.1, sp.2 with
      | _ :: _, ')' :: r2 => do
        let repl ← imgRepl lang page true ⟨sp.1⟩
        let tail ← blockRefGo lang page fuel false r2
        .ok (repl.data ++ tail)
      | _, _ => do
        let tail ← blockRefGo lang page fuel (c = Char.ofNat 10) cs
        .ok (c :: tail)
    else do
      let tail ← blockRefGo lang page fuel (c = Char.ofNat 10) cs
      .ok (c :: tail)

/-- Embedding of `_process_images` (pw_to_mkdown3.py lines 371-417): the
inline substitution, then the block substitution. -/
def processImages (lang : String) (page : List String) (s : String) : Except PyErr String := do
  let r1 ← inlineRefGo lang page (s.data.length + 1) s.data
  let r2 ← blockRefGo lang page (r1.length + 1) true r1
  .ok ⟨r2⟩

/-- Content transformation of `convert_pukiwiki_file` (pw_to_mkdown3.py
lines 452-467): internal links, images, the rule loop, then
`_convert_others`. -/
def convertContent (lang : String) (page : List String) (s : String) : Except PyErr String := do
  let s1 := convertInternalLinks lang page s
  let s2 ← processImages lang page s1
  .ok (convertOthers (applyRules3 s2))

/-- Embedding of `determine_target_filename` (pw_to_mkdown3.py lines
419-432): basename, extension split, hex decode, and the `FrontPage` to
`index` mapping, yielding `<decoded>.md`. -/
def determineTargetFilename (srcFile : String) : Except PyErr String := do
  let fileName := pyBasename srcFile
  let fileBase := pySplitextBase fileName
  let decoded ← decodeName fileBase
  let decoded2 := if decoded = "FrontPage" then "index" else decoded
  .ok (decoded2 ++ ".md")

/-- Embedding of `convert_pukiwiki_file` (pw_to_mkdown3.py lines 434-482),
with file I/O abstracted: the detected-encoding read is the `content`
argument, and the two writes are modelled by returning the output path
`<lang>/<target>` with the transformed body. A `FormatRule.md` target is
skipped before any conversion (`ok none`). -/
def convertPukiwikiFile (lang : String) (srcFile : String) (content : String) :
    Except PyErr (Option (String × String)) := do
  let target ← determineTargetFilename srcFile
  if target = "FormatRule.md" then .ok none
  else
    let pageName := splitOnCharS '/' (pyWithSuffixEmpty target)
    let body ← convertContent lang pageName content
    .ok (some (lang ++ "/" ++ target, body))

/-- Embedding of `process_attach` (pw_to_mkdown3.py lines 484-498): the
extensionless base name must split at `_` into exactly two halves (the
`assert` raises otherwise), both halves are hex-decoded, and the page half
`FrontPage` maps to `index`; the returned pair is the target directory page
and the attachment name the file is copied to. -/
def processAttach (srcFile : String) : Except PyErr (String × String) :=
  let fileBase := pySplitextBase (pyBasename srcFile)
  match splitOnCharS '_' fileBase with
  | [a, b] => do
    let p ← decodeName a
    let r ← decodeName b
    .ok ((if p = "FrontPage" then "index" else p), r)
  | _ => .error .assertionError

/-- Attachment loop of `batch_convert_directory` (pw_to_mkdown3.py lines
505-510): extensionless files are processed in order with no exception
handler, so the first failure propagates and aborts the walk. -/
def walkAttach : List String → Except PyErr (List (String × String))
  | [] => .ok []
  | f :: fs =>
    if pathlibSuffix f = "" then do
      let r ← processAttach f
      let rs ← walkAttach fs
      .ok (r :: rs)
    else walkAttach fs

/-- Page loop of `batch_convert_directory` (pw_to_mkdown3.py lines 528-534):
each conversion runs inside `try`/`except`, so the outcome of every page —
success or logged error — is recorded and the loop always reaches the next
page. -/
def walkPages (lang : String) (pages : List (String × String)) :
    List (Except PyErr (Option (String × String))) :=
  pages.map (fun p => convertPukiwikiFile lang p.1 p.2)

/-- Embedding of `batch_convert_directory` (pw_to_mkdown3.py lines 500-534):
the unguarded attachment loop runs first, then the guarded page loop. -/
def batchConvertDirectory (lang : String) (attach : List String)
    (pages : List (String × String)) :
    Except PyErr (List (String × String) × List (Except PyErr (Option (String × String)))) := do
  let copies ← walkAttach attach
  .ok (copies, walkPages lang pages)

/-- Specification-side description of the option a single raw option token
contributes: `nolink` contributes nothing, a token with a percent match
contributes its zoom style, anything else nothing. Used to state that the
produced option set lists the zoom options in appearance order. -/
def imgOptOf (i : String) : Option ImgOpt :=
  if i = "nolink" then none
  else
    match pctMatch i with
    | some n => (pyFloat n).map (fun v => ImgOpt.zoomStyle (ratDiv100 v))
    | none => none

/-- Decidable equality for `Except`, so concrete pipeline outcomes can be
checked by `decide`. -/
instance instDecidableEqExcept {α β : Type} [DecidableEq α] [DecidableEq β] :
    DecidableEq (Except α β) := fun a b =>
  match a, b with
  | .ok x, .ok y =>
    if h : x = y then isTrue (by rw [h]) else isFalse (fun hh => h (Except.ok.inj hh))
  | .error x, .error y =>
    if h : x = y then isTrue (by rw [h]) else isFalse (fun hh => h (Except.error.inj hh))
  | .ok _, .error _ => isFalse (fun hh => Except.noConfusion hh)
  | .error _, .ok _ => isFalse (fun hh => Except.noConfusion hh)

/-- Every character of the output of the unsafe-character substitution loop
is safe: the loop only emits underscores and characters it found safe. -/
theorem unsafeSubGo_mem (l : List Char) :
    ∀ b c, c ∈ unsafeSubGo l b → unsafeChar c = false := by
  induction l with
  | nil => intro b c h; exact absurd h (List.not_mem_nil c)
  | cons c0 cs ih =>
    intro b c h
    by_cases h0 : unsafeChar c0 = true
    · rw [unsafeSubGo, if_pos h0] at h
      cases b with
      | true => rw [if_pos rfl] at h; exact ih true c h
      | false =>
        rw [if_neg (by decide)] at h
        simp only [List.mem_cons] at h
        rcases h with h | h
        · subst h; decide
        · exact ih true c h
    · rw [unsafeSubGo, if_neg h0] at h
      simp only [List.mem_cons] at h
      rcases h with h | h
      · subst h; simpa using h0
      · exact ih false c h

/-- The substitution loop is the identity on inputs without unsafe
characters. -/
theorem unsafeSubGo_clean (l : List Char) (h : ∀ c ∈ l, unsafeChar c = false) :
    unsafeSubGo l false = l := by
  induction l with
  | nil => rfl
  | cons c0 cs ih =>
    have h0 : unsafeChar c0 = false := h c0 (List.mem_cons_self c0 cs)
    rw [unsafeSubGo, if_neg (by simp [h0])]
    exact congrArg (c0 :: ·) (ih (fun c hc => h c (List.mem_cons_of_mem c0 hc)))

/-- ASCII whitespace characters are not hexadecimal digits. -/
theorem isPySpaceChar_not_hex (c : Char) (h : isPySpaceChar c = true) :
    isHexDigit c = false := by
  simp [isPySpaceChar] at h
  rcases h with ((((h | h) | h) | h) | h) | h <;> subst h <;> decide

/-- A character that is neither a hex digit nor ASCII whitespace forces the
`bytes.fromhex` loop to fail. -/
theorem pyBytesFromHexGo_badchar :
    ∀ n (l : List Char), l.length ≤ n →
      (∃ c ∈ l, isHexDigit c = false ∧ isPySpaceChar c = false) →
      pyBytesFromHexGo l = none := by
  intro n
  induction n with
  | zero =>
    intro l hl hex
    have : l = [] := List.eq_nil_of_length_eq_zero (Nat.le_zero.mp hl)
    subst this
    simp at hex
  | succ n ih =>
    intro l hl hex
    match l with
    | [] => simp at hex
    | c :: cs =>
      obtain ⟨c', hmem, hbad, hsp⟩ := hex
      by_cases hc : isPySpaceChar c = true
      · have hstep : pyBytesFromHexGo (c :: cs) = pyBytesFromHexGo cs := by
          rw [pyBytesFromHexGo.eq_def]; simp [hc]
        rw [hstep]
        rcases List.mem_cons.mp hmem with h | h
        · subst h; exact absurd hc (by simp [hsp])
        · exact ih cs (by simpa using Nat.le_of_succ_le_succ hl) ⟨c', h, hbad, hsp⟩
      · match cs with
        | [] => exact if_neg hc
        | c2 :: cs2 =>
          have hstep : pyBytesFromHexGo (c :: c2 :: cs2) =
              (match hexDigitVal c, hexDigitVal c2 with
               | some d1, some d2 =>
                 (pyBytesFromHexGo cs2).map (fun bs => (16 * d1 + d2) :: bs)
               | _, _ => none) := if_neg hc
          rw [hstep]
          cases h1 : hexDigitVal c with
          | none => rfl
          | some d1 =>
            cases h2 : hexDigitVal c2 with
            | none => rfl
            | some d2 =>
              have hrec : pyBytesFromHexGo cs2 = none := by
                apply ih cs2 (by simp at hl ⊢; omega)
                rcases List.mem_cons.mp hmem with h | h
                · subst h; simp [isHexDigit, h1] at hbad
                · rcases List.mem_cons.mp h with h | h
                  · subst h; simp [isHexDigit, h2] at hbad
                  · exact ⟨c', h, hbad, hsp⟩
              simp [hrec]

/-- A successful `bytes.fromhex` consumes an even number of hex digits. -/
theorem pyBytesFromHexGo_even :
    ∀ n (l : List Char) bs, l.length ≤ n → pyBytesFromHexGo l = some bs →
      (l.filter isHexDigit).length % 2 = 0 := by
  intro n
  induction n with
  | zero =>
    intro l bs hl _
    have : l = [] := List.eq_nil_of_length_eq_zero (Nat.le_zero.mp hl)
    subst this; rfl
  | succ n ih =>
    intro l bs hl hsome
    match l with
    | [] => rfl
    | c :: cs =>
      by_cases hc : isPySpaceChar c = true
      · have hstep : pyBytesFromHexGo (c :: cs) = pyBytesFromHexGo cs := by
          rw [pyBytesFromHexGo.eq_def]; simp [hc]
        rw [hstep] at hsome
        have hnh : isHexDigit c = false := isPySpaceChar_not_hex c hc
        simpa [hnh] using ih cs bs (by simpa using Nat.le_of_succ_le_succ hl) hsome
      · match cs with
        | [] =>
          have hstep : pyBytesFromHexGo (c :: []) = none := if_neg hc
          rw [hstep] at hsome
          exact absurd hsome (by simp)
        | c2 :: cs2 =>
          have hstep : pyBytesFromHexGo (c :: c2 :: cs2) =
              (match hexDigitVal c, hexDigitVal c2 with
               | some d1, some d2 =>
                 (pyBytesFromHexGo cs2).map (fun bs => (16 * d1 + d2) :: bs)
               | _, _ => none) := if_neg hc
          rw [hstep] at hsome
          cases h1 : hexDigitVal c with
          | none => rw [h1] at hsome; exact absurd hsome (by simp)
          | some d1 =>
            cases h2 : hexDigitVal c2 with
            | none => rw [h1, h2] at hsome; exact absurd hsome (by simp)
            | some d2 =>
              rw [h1, h2] at hsome
              obtain ⟨bs2, hbs2, _⟩ := Option.map_eq_some'.mp (by simpa using hsome)
              have heven := ih cs2 bs2 (by simp at hl ⊢; omega) hbs2
              have hhex1 : isHexDigit c = true := by simp [isHexDigit, h1]
              have hhex2 : isHexDigit c2 = true := by simp [isHexDigit, h2]
              simp [hhex1, hhex2]
              omega

/-- C10: an image-path segment has surrounding quotes stripped exactly when
it has length at least 2 and its first and last characters are the same
character drawn from double quote, single quote, or backtick; every other
segment (mismatched or unpaired quotes included) is returned unchanged. -/
theorem c10_strip_quotes :
    (∀ s : String, 2 ≤ s.data.length → s.data.head? = s.data.getLast? →
      (s.data.head? = some dqChar ∨ s.data.head? = some apoChar ∨ s.data.head? = some btChar) →
      stripQuotes s = String.mk s.data.tail.dropLast) ∧
    (∀ s : String,
      ¬(2 ≤ s.data.length ∧ s.data.head? = s.data.getLast? ∧
        (s.data.head? = some dqChar ∨ s.data.head? = some apoChar ∨
          s.data.head? = some btChar)) →
      stripQuotes s = s) := by
  constructor
  · intro s h1 h2 h3
    unfold stripQuotes
    rw [if_pos ⟨h1, h2, h3⟩]
  · intro s h
    unfold stripQuotes
    rw [if_neg h]

/-- Witness for `c10_strip_quotes`: a double-quoted segment is stripped and
an unpaired one is returned unchanged. -/
theorem c10_strip_quotes_witness :
    stripQuotes (String.mk [dqChar, 'a', 'b', dqChar]) =
      String.mk ([dqChar, 'a', 'b', dqChar].tail.dropLast) ∧
    stripQuotes (String.mk [dqChar, 'a', 'b']) = String.mk [dqChar, 'a', 'b'] :=
  ⟨c10_strip_quotes.1 ⟨[dqChar, 'a', 'b', dqChar]⟩ (by decide) (by decide) (by decide),
   c10_strip_quotes.2 ⟨[dqChar, 'a', 'b']⟩ (by decide)⟩

/-- C8 counterexample: the decoded name `::` consists of two unsafe
characters, yet `decode_name` returns a single underscore, not one
underscore per character — the substitution regex collapses a whole run. -/
theorem c8_counterexample :
    tryDecode [58, 58] = some (String.mk [':', ':']) ∧
    decodeName "3A3A" = Except.ok "_" ∧ ("_" : String) ≠ "__" := by
  refine ⟨by decide, by decide, by decide⟩

/-- C8 (amended): `try_decode` attempts the legacy Japanese encoding first
and the universal encoding second, returning the first success and `none`
when both fail; on a well-formed hex name, `decode_name` returns the decoded
string with every maximal run of unsafe-set characters (backslash, colon,
asterisk, question mark, double quote, angle brackets, pipe — not forward
slash) replaced by a single underscore, and raises `TypeError` when no
decoding succeeds. The output never contains an unsafe character, and
clean strings — forward slashes included — pass through unchanged. -/
theorem c8_decode_pipeline :
    (∀ bs s, eucJpDecode bs = some s → tryDecode bs = some s) ∧
    (∀ bs, eucJpDecode bs = none → tryDecode bs = utf8Decode bs) ∧
    (∀ (s : String) bs d, pyBytesFromHex s = some bs → tryDecode bs = some d →
      decodeName s = Except.ok (unsafeSub d)) ∧
    (∀ (s : String) bs, pyBytesFromHex s = some bs → tryDecode bs = none →
      decodeName s = Except.error PyErr.typeError) ∧
    (∀ (s : String) c, c ∈ (unsafeSub s).data → unsafeChar c = false) ∧
    (∀ s : String, (∀ c ∈ s.data, unsafeChar c = false) → unsafeSub s = s) := by
  refine ⟨?_, ?_, ?_, ?_, ?_, ?_⟩
  · intro bs s h; unfold tryDecode; rw [h]
  · intro bs h; unfold tryDecode; rw [h]
  · intro s bs d h1 h2; simp only [decodeName, h1, h2]
  · intro s bs h1 h2; simp only [decodeName, h1, h2]
  · intro s c h; exact unsafeSubGo_mem s.data false c h
  · intro s h
    show String.mk (unsafeSubGo s.data false) = s
    rw [unsafeSubGo_clean s.data h]

/-- Witness for `c8_decode_pipeline`: ASCII bytes decode through the legacy
encoding, a well-formed hex name decodes to its substituted form, and a name
with a forward slash survives substitution unchanged. -/
theorem c8_decode_pipeline_witness :
    tryDecode [70, 114] = some "Fr" ∧
    decodeName "4672" = Except.ok "Fr" ∧
    unsafeSub "a/b" = "a/b" :=
  ⟨c8_decode_pipeline.1 [70, 114] "Fr" (by decide),
   (c8_decode_pipeline.2.2.1 "4672" [70, 114] "Fr" (by decide) (by decide)).trans (by decide),
   c8_decode_pipeline.2.2.2.2.2 "a/b" (by decide)⟩

/-- C9 counterexample: `"46 72"` is not a sequence of hexadecimal digit
pairs — it contains a non-hex character (a space) and has odd length — yet
`decode_name` succeeds on it, because `bytes.fromhex` skips ASCII whitespace
between pairs. -/
theorem c9_counterexample : decodeName "46 72" = Except.ok "Fr" := by decide

/-- C9 (amended): `decode_name` fails with the hex `ValueError` exactly when
`bytes.fromhex` rejects the input; in particular any character that is
neither a hex digit nor ASCII whitespace forces failure, as does an odd
number of hex digits — but whitespace between digit pairs is accepted. -/
theorem c9_malformed_hex :
    (∀ s : String,
      decodeName s = Except.error PyErr.valueError ↔ pyBytesFromHex s = none) ∧
    (∀ s : String, (∃ c ∈ s.data, isHexDigit c = false ∧ isPySpaceChar c = false) →
      pyBytesFromHex s = none) ∧
    (∀ s : String, (s.data.filter isHexDigit).length % 2 = 1 →
      pyBytesFromHex s = none) := by
  refine ⟨?_, ?_, ?_⟩
  · intro s
    constructor
    · intro h
      cases hbs : pyBytesFromHex s with
      | none => rfl
      | some bs =>
        simp only [decodeName, hbs] at h
        cases htd : tryDecode bs with
        | none => simp only [htd] at h; exact absurd (Except.error.inj h) (by decide)
        | some d => simp only [htd] at h; exact absurd h (by simp)
    · intro h; simp only [decodeName, h]
  · intro s h
    exact pyBytesFromHexGo_badchar s.data.length s.data le_rfl h
  · intro s h
    cases hbs : pyBytesFromHexGo s.data with
    | none => exact hbs
    | some bs =>
      have := pyBytesFromHexGo_even s.data.length s.data bs le_rfl hbs
      omega

/-- Witness for `c9_malformed_hex`: `"4G"` contains a non-hex character, so
`bytes.fromhex` rejects it and `decode_name` raises the hex error. -/
theorem c9_malformed_hex_witness :
    pyBytesFromHex "4G" = none ∧ decodeName "4G" = Except.error PyErr.valueError := by
  have h := c9_malformed_hex.2.1 "4G" ⟨'G', by decide, by decide, by decide⟩
  exact ⟨h, (c9_malformed_hex.1 "4G").mpr h⟩

/-- C4: a source file whose decoded name is `FrontPage` always maps to the
output identity `index` — for wiki pages (target `index.md`) and for the
page half of attachment names alike — and a source file whose decoded name
is `FormatRule` is skipped entirely: the conversion returns without
producing any output. -/
theorem c4_reserved_names :
    (∀ f : String, decodeName (pySplitextBase (pyBasename f)) = Except.ok "FrontPage" →
      determineTargetFilename f = Except.ok "index.md") ∧
    (∀ f a b r : String, splitOnCharS '_' (pySplitextBase (pyBasename f)) = [a, b] →
      decodeName a = Except.ok "FrontPage" → decodeName b = Except.ok r →
      processAttach f = Except.ok ("index", r)) ∧
    (∀ lang f content : String,
      decodeName (pySplitextBase (pyBasename f)) = Except.ok "FormatRule" →
      convertPukiwikiFile lang f content = Except.ok none) := by
  refine ⟨?_, ?_, ?_⟩
  · intro f h
    simp only [determineTargetFilename, h]
    rfl
  · intro f a b r hsplit ha hb
    simp only [processAttach, hsplit, ha, hb]
    rfl
  · intro lang f content h
    have htarget : determineTargetFilename f = Except.ok "FormatRule.md" := by
      simp only [determineTargetFilename, h]
      rfl
    simp only [convertPukiwikiFile, htarget]
    rfl

/-- Witness for `c4_reserved_names`: the hex of `FrontPage` as a wiki file
and as the page half of an attachment, and the hex of `FormatRule` as a
skipped wiki file. -/
theorem c4_reserved_names_witness :
    determineTargetFilename "46726F6E7450616765.txt" = Except.ok "index.md" ∧
    processAttach "46726F6E7450616765_41" = Except.ok ("index", "A") ∧
    convertPukiwikiFile "ja" "466F726D617452756C65.txt" "body" = Except.ok none :=
  ⟨c4_reserved_names.1 "46726F6E7450616765.txt" (by decide),
   c4_reserved_names.2.1 "46726F6E7450616765_41" "46726F6E7450616765" "41" "A"
     (by decide) (by decide) (by decide),
   c4_reserved_names.2.2 "ja" "466F726D617452756C65.txt" "body" (by decide)⟩

/-- C1 counterexample: for current page `a/b` in the default language, the
resolver emits the parent-chain target `../../a/b/c` for input `./c`, not
the claimed root-absolute `/a/b/c`. -/
theorem c1_counterexample :
    linkRepl "ja" ["a", "b"] "x" "./c" = "[x](../../a/b/c)" ∧
    ("[x](../../a/b/c)" : String) ≠ "[x](/a/b/c)" := by
  refine ⟨by decide, by decide⟩

/-- C1 (amended): for current page `a/b` the resolver expresses the site
root as a chain of `..` segments — one per page-name part, plus one under a
non-default language — so `./c` maps to `../../a/b/c`, `../c` to
`../../a/c`, a bare name to `../../OtherPage`; under language `en` the
chain gains one `..` and the `en` segment follows it immediately; anchors
and external `http://` targets are emitted unchanged in every language. -/
theorem c1_link_resolver_targets :
    linkRepl "ja" ["a", "b"] "x" "./c" = "[x](../../a/b/c)" ∧
    linkRepl "ja" ["a", "b"] "x" "../c" = "[x](../../a/c)" ∧
    linkRepl "ja" ["a", "b"] "x" "#sec1" = "[x](#sec1)" ∧
    linkRepl "ja" ["a", "b"] "x" "http://x.org" = "[x](http://x.org)" ∧
    linkRepl "ja" ["a", "b"] "x" "OtherPage" = "[x](../../OtherPage)" ∧
    linkRepl "en" ["a", "b"] "x" "./c" = "[x](../../../en/a/b/c)" ∧
    linkRepl "en" ["a", "b"] "x" "../c" = "[x](../../../en/a/c)" ∧
    linkRepl "en" ["a", "b"] "x" "#sec1" = "[x](#sec1)" ∧
    linkRepl "en" ["a", "b"] "x" "http://x.org" = "[x](http://x.org)" ∧
    linkRepl "en" ["a", "b"] "x" "OtherPage" = "[x](../../../en/OtherPage)" := by
  refine ⟨by decide, by decide, by decide, by decide, by decide,
    by decide, by decide, by decide, by decide, by decide⟩

/-- C6 counterexample: the current Markup Rule Engine leaves `!!Title`
unchanged — its heading sigil is `*`, not `!` — so `!!Title` does not become
`## Title` there. -/
theorem c6_counterexample :
    applyRules3 "!!Title" = "!!Title" ∧ ("!!Title" : String) ≠ "## Title" :=
  ⟨by decide, by decide⟩

/-- C6 (amended): in the current engine the heading sigil is `*` and the
level offset holds (`*`/`**`/`***` to levels 2/3/4); in the legacy engine
the sigil is `!` with the straight mapping `!!!`/`!!`/`!` to levels 1/2/3 —
there `!!Title` does become `## Title`, but the one-sigil case maps to
level 3 and the three-sigil case to level 1, so the offset rule fails. -/
theorem c6_heading_offset :
    applyRules3 "*Title" = "## Title" ∧
    applyRules3 "**Title" = "### Title" ∧
    applyRules3 "***Title" = "#### Title" ∧
    applyRulesLegacy "!!!Title" = "# Title" ∧
    applyRulesLegacy "!!Title" = "## Title" ∧
    applyRulesLegacy "!Title" = "### Title" :=
  ⟨by decide, by decide, by decide, by decide, by decide, by decide⟩

/-- C2 counterexample: in `:a''b|c''d` the bold substitution has already run
when the definition-list structural rule fires — the rules pass yields
`:a**b|c**d`, and the final output carries `**` spanning the
term/description boundary. Had the emphasis substitution been applied last
(after the definition-list rule), the two `''` pairs would lie on different
lines of the built definition list and remain unconverted. -/
theorem c2_counterexample :
    applyRules3 (String.mk [':', 'a', apoChar, apoChar, 'b', '|', 'c', apoChar, apoChar, 'd']) =
      ":a**b|c**d" ∧
    convertContent "ja" ["p"]
        (String.mk [':', 'a', apoChar, apoChar, 'b', '|', 'c', apoChar, apoChar, 'd']) =
      Except.ok "\na**b\n:   c**d" :=
  ⟨by decide, by decide⟩

/-- C2 (amended): the emphasis/strike/underline substitutions are the last
four entries of the regex rule list — so they run after the directive,
blockquote, and heading rules, and an emphasis sigil inside heading text is
rewritten only after the heading rule — but the structural line passes of
`_convert_others` (comments, code blocks, definition lists, lists, anchors,
embeds, line breaks) run after the whole regex pass, emphasis included. -/
theorem c2_emphasis_order :
    pukiwikiRules3 =
      [PwRule.access, PwRule.contents, PwRule.quote1, PwRule.quote2, PwRule.h1, PwRule.h2,
        PwRule.h3] ++ [PwRule.bold, PwRule.italic, PwRule.strike, PwRule.underline] ∧
    applyRules3 (String.mk ['*', 't', ' ', apoChar, apoChar, 'x', apoChar, apoChar]) =
      "## t **x**" ∧
    (∀ lang page s, convertContent lang page s =
      (processImages lang page (convertInternalLinks lang page s)).map
        (fun s2 => convertOthers (applyRules3 s2))) := by
  refine ⟨by decide, by decide, ?_⟩
  intro lang page s
  simp only [convertContent]
  cases h : processImages lang page (convertInternalLinks lang page s) <;> rfl

/-- C3: the coalescing loop emits one opening and one closing fence around a
mid-body run of single-space-indented lines, but when the run reaches the
last line of the body the closing fence is lost — the source appends it to
the superseded list (pw_to_mkdown3.py lines 272-274) which the next
statement discards. -/
theorem c3_code_block_fences :
    codeBlockGo ["x", " a", " b", " c", "y"] false =
      ["x", "```", "a", "b", "c", "```", "y"] ∧
    codeBlockGo [" a", " b", " c"] false = ["```", "a", "b", "c"] ∧
    convertOthers " a\n b\n c" = "```\na\nb\nc" :=
  ⟨by decide, by decide, by decide⟩

/-- C5 counterexample: a malformed attachment name (`41_42_43` splits into
three parts, so the `assert` raises) aborts the whole corpus walk — the
following well-formed attachment `41_42` is never copied and the page is
never converted — refuting the claim that per-attachment errors never abort
the walk. -/
theorem c5_counterexample :
    batchConvertDirectory "ja" ["41_42_43", "41_42"] [("41.txt", "hello")] =
      Except.error PyErr.assertionError := by decide

/-- C5 (amended): per-page errors are isolated — with no attachments the
walk always succeeds, every page is attempted, and a failing page is
recorded as a logged outcome while the walk proceeds to the next page — but
per-attachment errors are not caught and propagate out of the walk. -/
theorem c5_error_isolation :
    (∀ (lang : String) (pages : List (String × String)),
      batchConvertDirectory lang [] pages = Except.ok ([], walkPages lang pages)) ∧
    (∀ (lang : String) (pages : List (String × String)),
      (walkPages lang pages).length = pages.length) ∧
    batchConvertDirectory "ja" [] [("ZZ.txt", "x"), ("41.txt", "y")] =
      Except.ok ([], [Except.error PyErr.valueError, Except.ok (some ("ja/A.md", "y"))]) := by
  refine ⟨?_, ?_, by decide⟩
  · intro lang pages; rfl
  · intro lang pages; simp [walkPages]

/-- Order specification of the option-set loop: a successful run lists the
zoom options in their appearance order in the raw option list, with the
lightbox class appended last unless some token is `nolink`. -/
theorem processImageOptionsGo_spec :
    ∀ (l : List String) (z : Bool) res, processImageOptionsGo l z = some res →
      res = l.filterMap imgOptOf ++
        (if "nolink" ∈ l then [] else if z then [ImgOpt.onGlb] else []) := by
  intro l
  induction l with
  | nil =>
    intro z res h
    have hres : (if z then [ImgOpt.onGlb] else []) = res := Option.some.inj h
    simp [← hres]
  | cons i rest ih =>
    intro z res h
    by_cases hi : i = "nolink"
    · subst hi
      have hstep : processImageOptionsGo ("nolink" :: rest) z =
          processImageOptionsGo rest false := by
        rw [processImageOptionsGo.eq_def]; simp
      rw [hstep] at h
      have := ih false res h
      simp only [List.filterMap_cons, imgOptOf, if_pos rfl, List.mem_cons, true_or,
        if_true] at this ⊢
      simpa [ite_self] using this
    · cases hp : pctMatch i with
      | none =>
        have hstep : processImageOptionsGo (i :: rest) z = processImageOptionsGo rest z := by
          rw [processImageOptionsGo.eq_def]; simp [hi, hp]
        rw [hstep] at h
        have hres := ih z res h
        have hi2 : ("nolink" = i) = False := eq_false (fun hh => hi hh.symm)
        simp [List.filterMap_cons, imgOptOf, hi, hp, List.mem_cons, hi2, hres]
      | some n =>
        cases hf : pyFloat n with
        | none =>
          have hstep : processImageOptionsGo (i :: rest) z = none := by
            rw [processImageOptionsGo.eq_def]; simp [hi, hp, hf]
          rw [hstep] at h
          exact absurd h (by simp)
        | some v =>
          have hstep : processImageOptionsGo (i :: rest) z =
              (processImageOptionsGo rest z).map
                (fun os => ImgOpt.zoomStyle (ratDiv100 v) :: os) := by
            rw [processImageOptionsGo.eq_def]; simp [hi, hp, hf]
          rw [hstep] at h
          obtain ⟨res2, hres2, hcons⟩ := Option.map_eq_some'.mp h
          have hres := ih z res2 hres2
          have hi2 : ("nolink" = i) = False := eq_false (fun hh => hi hh.symm)
          subst hcons
          simp [List.filterMap_cons, imgOptOf, hi, hp, hf, List.mem_cons, hi2, hres]

/-- C7: the inline directive `&ref(foo.png,50%,nolink);` yields alt text
`foo` with an option set holding a zoom style of 0.5 and no lightbox class;
the block directive `#ref(bar.jpg)` yields alt text `bar` with the lightbox
class, wrapped in surrounding blank lines; and every produced option set
lists the zoom options in appearance order with the default lightbox class
appended last. -/
theorem c7_image_options :
    processImageOptions (splitOnCharS ',' "foo.png,50%,nolink") =
      some [ImgOpt.zoomStyle (mkRat 1 2)] ∧
    imgRepl "ja" ["p"] false "foo.png,50%,nolink" =
      Except.ok "![foo](../assets/images/p/foo.png)\x7b style=\"zoom: 0.5\" \x7d" ∧
    processImageOptions (splitOnCharS ',' "bar.jpg") = some [ImgOpt.onGlb] ∧
    imgRepl "ja" ["p"] true "bar.jpg" =
      Except.ok "\n![bar](../assets/images/p/bar.jpg)\x7b .on-glb \x7d\n" ∧
    (∀ (parts : List String) res, processImageOptions parts = some res →
      res = parts.tail.filterMap imgOptOf ++
        (if "nolink" ∈ parts.tail then [] else [ImgOpt.onGlb])) := by
  refine ⟨by decide, by decide, by decide, by decide, ?_⟩
  intro parts res h
  simpa using processImageOptionsGo_spec parts.tail true res h

/-- Witness for `c7_image_options`: the order property applied to the
concrete option list `x.png,25%`. -/
theorem c7_image_options_witness :
    processImageOptions ["x.png", "25%"] =
      some [ImgOpt.zoomStyle (mkRat 1 4), ImgOpt.onGlb] ∧
    [ImgOpt.zoomStyle (mkRat 1 4), ImgOpt.onGlb] =
      (["x.png", "25%"] : List String).tail.filterMap imgOptOf ++
        (if "nolink" ∈ (["x.png", "25%"] : List String).tail then [] else [ImgOpt.onGlb]) :=
  ⟨by decide,
   c7_image_options.2.2.2.2 ["x.png", "25%"] [ImgOpt.zoomStyle (mkRat 1 4), ImgOpt.onGlb]
     (by decide)⟩

/-- The num/den-level division helper agrees with the source's `/ 100.0`. -/
theorem ratDiv100_eq (v : ℚ) : ratDiv100 v = v / 100 := by
  rw [ratDiv100, Rat.mkRat_eq_div]
  push_cast
  rw [div_mul_eq_div_div, Rat.num_div_den]
